import Mathlib

/-!
Verification of the logging/observability core of the nodejs-service-template
repository: the structured logger construction (`src/utils/logger.ts`), the
HTTP access-log middleware (`src/middlewares/httpLogger.ts`), and the
environment-based configuration loader (`config/index.js`), shallowly embedded
as executable Lean definitions together with theorems about their behavior.
-/

set_option maxHeartbeats 4000000
set_option maxRecDepth 8000

namespace NodeSvc

/-! ## String helpers (JS semantics used by the source) -/

/-- List-level test that `p` occurs at the start of `s` (JS `startsWith`). -/
def listStarts : List Char → List Char → Bool
  | [], _ => true
  | _ :: _, [] => false
  | a :: ps, b :: ss => a == b && listStarts ps ss

/-- List-level test that `p` occurs somewhere inside `s` (JS `includes`). -/
def listHasSub (p : List Char) : List Char → Bool
  | [] => listStarts p []
  | b :: ss => listStarts p (b :: ss) || listHasSub p ss

/-- JS `s.startsWith(p)`. -/
def strStarts (s p : String) : Bool := listStarts p.data s.data

/-- JS `s.includes(p)`. -/
def strHasSub (s p : String) : Bool := listHasSub p.data s.data

/-- Whitespace class removed by the JS `trim` family (ASCII portion). -/
def isWSChar (c : Char) : Bool :=
  c == ' ' || c == '\t' || c == '\n' || c == '\r' || c == '\x0b' || c == '\x0c'

/-- JS `String.prototype.trimStart`: drop leading whitespace. -/
def jsTrimHead (s : String) : String := ⟨s.data.dropWhile isWSChar⟩

/-- JS `String.prototype.trimEnd`: drop trailing whitespace. -/
def jsTrimTail (s : String) : String := ⟨(s.data.reverse.dropWhile isWSChar).reverse⟩

/-- JS `String.prototype.trim`: drop whitespace at both ends. -/
def jsTrim (s : String) : String :=
  ⟨((s.data.dropWhile isWSChar).reverse.dropWhile isWSChar).reverse⟩

/-! ## Severity levels (winston.config.npm.levels) -/

/-- The npm severity levels the logger is created with
(`levels: winston.config.npm.levels`). -/
inductive Level where
  | error | warn | info | http | verbose | debug | silly
deriving DecidableEq, Repr

/-- Numeric priority of each npm level; a smaller number is more severe. -/
def priorityOf : Level → Nat
  | .error => 0
  | .warn => 1
  | .info => 2
  | .http => 3
  | .verbose => 4
  | .debug => 5
  | .silly => 6

/-- Name of each level as it appears in log output. -/
def levelName : Level → String
  | .error => "error"
  | .warn => "warn"
  | .info => "info"
  | .http => "http"
  | .verbose => "verbose"
  | .debug => "debug"
  | .silly => "silly"

/-! ## HTTP access-log middleware (`src/middlewares/httpLogger.ts`) -/

/-- Routes excluded from access logging (`const skipRoutes` in the source). -/
def skipRoutes : List String := ["/health", "/metrics", "/favicon.ico"]

/-- The morgan `skip` predicate `shouldSkipLog(req, res)` from the source:
skip when the request URL starts with an entry of `skipRoutes`, or when the
URL contains the substring "health" and the response status is 200. -/
def shouldSkipLog (url : String) (statusCode : Nat) : Bool :=
  if skipRoutes.any (fun route => strStarts url route) then true
  else if strHasSub url "health" && statusCode == 200 then true
  else false

/-- Number of access-log lines morgan emits for one completed request:
zero when the skip predicate holds, one otherwise. -/
def accessLogEmissions (url : String) (statusCode : Nat) : Nat :=
  if shouldSkipLog url statusCode then 0 else 1

/-! ## JSON values and the machine-readable encoding

The file transports of the logger are built with `format: fileFormat` where
`fileFormat = combine(baseFormat, json())`, i.e. each accepted record is
written as one compact JSON line (`JSON.stringify` of the record object).
We model JSON values, the compact rendering, and a parser, and prove the
rendering re-parses to the same value. -/

/-- JSON values (numbers restricted to integers, which is what the logging
records in this code base carry). -/
inductive JVal where
  | null
  | bool (b : Bool)
  | num (n : Int)
  | str (s : String)
  | arr (elems : List JVal)
  | obj (fields : List (String × JVal))

/-- Decimal digit character for `d < 10`. -/
def digitChar (d : Nat) : Char :=
  if d = 0 then '0' else if d = 1 then '1' else if d = 2 then '2'
  else if d = 3 then '3' else if d = 4 then '4' else if d = 5 then '5'
  else if d = 6 then '6' else if d = 7 then '7' else if d = 8 then '8' else '9'

/-- Decimal rendering of a natural number, most significant digit first,
with explicit fuel (`fuel > n` suffices). -/
def natDigitsAux : Nat → Nat → List Char
  | 0, _ => []
  | f + 1, n =>
    if n < 10 then [digitChar n] else natDigitsAux f (n / 10) ++ [digitChar (n % 10)]

/-- Decimal rendering of a natural number. -/
def natRenderChars (n : Nat) : List Char := natDigitsAux (n + 1) n

/-- Decimal rendering of an integer (JSON number syntax). -/
def intRenderChars (n : Int) : List Char :=
  if n < 0 then '-' :: natRenderChars n.natAbs else natRenderChars n.toNat

/-- JSON escape of one character inside a string literal. -/
def escChar (c : Char) : List Char :=
  if c = '"' then ['\\', '"']
  else if c = '\\' then ['\\', '\\']
  else if c = '\n' then ['\\', 'n']
  else if c = '\r' then ['\\', 'r']
  else if c = '\t' then ['\\', 't']
  else [c]

/-- JSON escape of a character list. -/
def escList : List Char → List Char
  | [] => []
  | c :: cs => escChar c ++ escList cs

/-- JSON string literal for `s`, quotes included. -/
def strLitChars (s : String) : List Char := '"' :: (escList s.data ++ ['"'])

mutual

/-- Compact JSON rendering of a value, as `JSON.stringify` emits it. -/
def renderChars : JVal → List Char
  | .null => "null".data
  | .bool true => "true".data
  | .bool false => "false".data
  | .num n => intRenderChars n
  | .str s => strLitChars s
  | .arr es => '[' :: (renderElems es ++ [']'])
  | .obj fs => '\x7b' :: (renderFields fs ++ ['\x7d'])

/-- Comma-separated rendering of array elements. -/
def renderElems : List JVal → List Char
  | [] => []
  | [v] => renderChars v
  | v :: w :: ws => renderChars v ++ ',' :: renderElems (w :: ws)

/-- Comma-separated rendering of object members. -/
def renderFields : List (String × JVal) → List Char
  | [] => []
  | [(k, v)] => strLitChars k ++ ':' :: renderChars v
  | (k, v) :: f :: fs => strLitChars k ++ ':' :: renderChars v ++ ',' :: renderFields (f :: fs)

end

/-- Compact JSON rendering as a `String`. -/
def jsonRender (v : JVal) : String := ⟨renderChars v⟩

/-! ### A JSON parser, to state the round-trip property -/

/-- Decimal digit test. -/
def isDigitCh (c : Char) : Bool := 48 ≤ c.toNat && c.toNat ≤ 57

/-- Numeric value of a digit character. -/
def digitVal (c : Char) : Nat := c.toNat - 48

/-- Consume a maximal run of digits, accumulating their value. -/
def parseDigitsAux : List Char → Nat → Nat × List Char
  | [], acc => (acc, [])
  | c :: cs, acc =>
    if isDigitCh c then parseDigitsAux cs (acc * 10 + digitVal c) else (acc, c :: cs)

/-- Parse a nonempty digit run into a natural number. -/
def parseNat : List Char → Option (Nat × List Char)
  | [] => none
  | c :: cs => if isDigitCh c then some (parseDigitsAux (c :: cs) 0) else none

/-- Reverse of `escChar` on the character after a backslash. -/
def unescChar (c : Char) : Option Char :=
  if c = '"' then some '"'
  else if c = '\\' then some '\\'
  else if c = 'n' then some '\n'
  else if c = 'r' then some '\r'
  else if c = 't' then some '\t'
  else none

/-- Parse the body of a string literal after the opening quote, up to and
including the closing quote; returns the unescaped characters. -/
def parseStrBody : List Char → Option (List Char × List Char)
  | [] => none
  | c :: rest =>
    if c = '"' then some ([], rest)
    else if c = '\\' then
      match rest with
      | [] => none
      | e :: rest2 =>
        match unescChar e with
        | some d =>
          match parseStrBody rest2 with
          | some (s, r) => some (d :: s, r)
          | none => none
        | none => none
    else
      match parseStrBody rest with
      | some (s, r) => some (c :: s, r)
      | none => none

mutual

/-- Parse one JSON value; `fuel` bounds the recursion depth. -/
def parseVal : Nat → List Char → Option (JVal × List Char)
  | 0, _ => none
  | _ + 1, [] => none
  | g + 1, c :: rest =>
    if c = 'n' then
      match rest with
      | 'u' :: 'l' :: 'l' :: r => some (.null, r)
      | _ => none
    else if c = 't' then
      match rest with
      | 'r' :: 'u' :: 'e' :: r => some (.bool true, r)
      | _ => none
    else if c = 'f' then
      match rest with
      | 'a' :: 'l' :: 's' :: 'e' :: r => some (.bool false, r)
      | _ => none
    else if c = '"' then
      match parseStrBody rest with
      | some (s, r) => some (.str ⟨s⟩, r)
      | none => none
    else if c = '[' then
      match parseElems g rest with
      | some (vs, r) => some (.arr vs, r)
      | none => none
    else if c = '\x7b' then
      match parseFields g rest with
      | some (fs, r) => some (.obj fs, r)
      | none => none
    else if c = '-' then
      match parseNat rest with
      | some (m, r) => some (.num (-(m : Int)), r)
      | none => none
    else if isDigitCh c then
      match parseNat (c :: rest) with
      | some (m, r) => some (.num (m : Int), r)
      | none => none
    else none

/-- Parse the elements of an array after the opening bracket, up to and
including the closing bracket. -/
def parseElems : Nat → List Char → Option (List JVal × List Char)
  | 0, _ => none
  | _ + 1, [] => none
  | g + 1, c :: rest =>
    if c = ']' then some ([], rest)
    else
      match parseVal g (c :: rest) with
      | some (v, ',' :: r2) =>
        match parseElems g r2 with
        | some (vs, r3) => some (v :: vs, r3)
        | none => none
      | some (v, ']' :: r2) => some ([v], r2)
      | _ => none

/-- Parse the members of an object after the opening brace, up to and
including the closing brace. -/
def parseFields : Nat → List Char → Option (List (String × JVal) × List Char)
  | 0, _ => none
  | _ + 1, [] => none
  | g + 1, c :: rest =>
    if c = '\x7d' then some ([], rest)
    else if c = '"' then
      match parseStrBody rest with
      | some (k, ':' :: r2) =>
        match parseVal g r2 with
        | some (v, ',' :: r3) =>
          match parseFields g r3 with
          | some (fs, r4) => some ((⟨k⟩, v) :: fs, r4)
          | none => none
        | some (v, '\x7d' :: r3) => some ([(⟨k⟩, v)], r3)
        | _ => none
      | _ => none
    else none

end

/-- Parse a complete JSON document: the whole input must be consumed.
The fuel bounds the recursion depth; twice the input length always suffices. -/
def jsonParse (s : String) : Option JVal :=
  match parseVal (2 * s.data.length + 2) s.data with
  | some (v, []) => some v
  | _ => none

/-! ### Fuel accounting for the round-trip -/

/-- The continuation after a rendered number must not begin with a digit. -/
def notDigitHead : List Char → Bool
  | [] => true
  | c :: _ => !isDigitCh c

/-- Accumulate a digit run into a number, most significant first. -/
def foldDigits (acc : Nat) (ds : List Char) : Nat :=
  ds.foldl (fun a c => a * 10 + digitVal c) acc

mutual

/-- Fuel needed to parse a rendered value. -/
def jsizeV : JVal → Nat
  | .null | .bool _ | .num _ | .str _ => 1
  | .arr es => 2 + jsizeElems es
  | .obj fs => 2 + jsizeFields fs

/-- Fuel needed to parse a rendered element list. -/
def jsizeElems : List JVal → Nat
  | [] => 0
  | v :: vs => 1 + jsizeV v + jsizeElems vs

/-- Fuel needed to parse a rendered member list. -/
def jsizeFields : List (String × JVal) → Nat
  | [] => 0
  | (_, v) :: fs => 1 + jsizeV v + jsizeFields fs

end

/-! ## Pretty console format (`prettyFormat` in `src/utils/logger.ts`) -/

mutual

/-- Pretty JSON rendering with two-space indentation, as
`JSON.stringify(value, null, 2)` emits it; `ind` is the enclosing indentation. -/
def ppVal (ind : List Char) : JVal → List Char
  | .arr [] => ['[', ']']
  | .obj [] => ['\x7b', '\x7d']
  | .arr es => '[' :: '\n' :: (ppElems (ind ++ [' ', ' ']) es ++ '\n' :: (ind ++ [']']))
  | .obj fs => '\x7b' :: '\n' :: (ppFields (ind ++ [' ', ' ']) fs ++ '\n' :: (ind ++ ['\x7d']))
  | v => renderChars v

/-- Pretty rendering of array elements, one per line. -/
def ppElems (ind : List Char) : List JVal → List Char
  | [] => []
  | [v] => ind ++ ppVal ind v
  | v :: w :: ws => ind ++ ppVal ind v ++ ',' :: '\n' :: ppElems ind (w :: ws)

/-- Pretty rendering of object members, one per line. -/
def ppFields (ind : List Char) : List (String × JVal) → List Char
  | [] => []
  | [(k, v)] => ind ++ strLitChars k ++ ':' :: ' ' :: ppVal ind v
  | (k, v) :: f :: fs =>
    ind ++ strLitChars k ++ ':' :: ' ' :: ppVal ind v ++ ',' :: '\n' :: ppFields ind (f :: fs)

end

/-- Pretty rendering as `JSON.stringify(v, null, 2)` produces it. -/
def jsonStringifyIndent2 (v : JVal) : String := ⟨ppVal [] v⟩

/-- The object a winston format receives: the destructured
`\x7b level, message, timestamp, ...metadata \x7d` of the record being written. -/
structure FormatInfo where
  timestamp : String
  level : String
  message : String
  metadata : List (String × JVal)

/-- The source's `prettyFormat` printf template: `timestamp [level]: message`,
then the metadata pretty-printed on the following lines when it is non-empty. -/
def prettyFormat (i : FormatInfo) : String :=
  let msg := i.timestamp ++ " [" ++ i.level ++ "]: " ++ i.message
  if i.metadata.length > 0 then msg ++ "\n" ++ jsonStringifyIndent2 (.obj i.metadata)
  else msg

/-! ## Logger construction (`createLogger` in `src/utils/logger.ts`) -/

/-- Output encoding of a destination. -/
inductive Encoding where
  | pretty | json
deriving DecidableEq, Repr

/-- The `logging` section of the configuration. -/
structure LogCfg where
  level : Level
  format : String
  directory : String
  maxSize : String
  maxFiles : String

/-- The fallback used when `config.logging` is absent
(`config.logging || \x7b level: 'info', ... \x7d`). -/
def defaultLogCfg : LogCfg :=
  { level := .info, format := "json", directory := "logs",
    maxSize := "20m", maxFiles := "14d" }

/-- One destination built by `createLogger`: a rotating file (or the console)
with its filename pattern, rotation settings, optional minimum level and
encoding. `minLevel = none` means the transport carries no level option. -/
structure TransportSpec where
  filenamePattern : String
  datePattern : String
  maxSize : String
  maxFiles : String
  minLevel : Option Level
  enc : Encoding

/-- The observable result of `createLogger`: the configured level, timestamp
pattern, console switch/encoding, and the four file destinations. -/
structure LoggerSpec where
  level : Level
  timestampPattern : String
  consoleEnabled : Bool
  consoleEnc : Encoding
  consoleLevel : Level
  combined : TransportSpec
  errorFile : TransportSpec
  exceptionsFile : TransportSpec
  rejectionsFile : TransportSpec
  exitOnError : Bool

/-- The `createLogger` function of `src/utils/logger.ts`: reads the logging
configuration (falling back to the built-in default), enables the console in
development or when forced by the environment, picks the console encoding from
`format`, always encodes files as JSON, fixes the error file at level
`error`, and registers exception and rejection files without a level option. -/
def createLogger (cfgOpt : Option LogCfg) (isDevelopment forceConsole : Bool) : LoggerSpec :=
  let logConfig := cfgOpt.getD defaultLogCfg
  { level := logConfig.level
    timestampPattern := "YYYY-MM-DD HH:mm:ss"
    consoleEnabled := isDevelopment || forceConsole
    consoleEnc := if logConfig.format = "pretty" then .pretty else .json
    consoleLevel := logConfig.level
    combined :=
      { filenamePattern := "application-%DATE%.log", datePattern := "YYYY-MM-DD",
        maxSize := logConfig.maxSize, maxFiles := logConfig.maxFiles,
        minLevel := some logConfig.level, enc := .json }
    errorFile :=
      { filenamePattern := "error-%DATE%.log", datePattern := "YYYY-MM-DD",
        maxSize := logConfig.maxSize, maxFiles := logConfig.maxFiles,
        minLevel := some .error, enc := .json }
    exceptionsFile :=
      { filenamePattern := "exceptions-%DATE%.log", datePattern := "YYYY-MM-DD",
        maxSize := logConfig.maxSize, maxFiles := logConfig.maxFiles,
        minLevel := none, enc := .json }
    rejectionsFile :=
      { filenamePattern := "rejections-%DATE%.log", datePattern := "YYYY-MM-DD",
        maxSize := logConfig.maxSize, maxFiles := logConfig.maxFiles,
        minLevel := none, enc := .json }
    exitOnError := false }

/-- Modelled from the spec: winston's level routing (winston itself is an
external library). A record reaches a normal transport when its severity
passes the logger's configured minimum and the transport's own minimum when
one is set ("route each to the destinations whose minimum level is at or
below the record's severity"). -/
def transportReceives (L : LoggerSpec) (t : TransportSpec) (s : Level) : Bool :=
  decide (priorityOf s ≤ priorityOf L.level) &&
    (match t.minLevel with
     | some l => decide (priorityOf s ≤ priorityOf l)
     | none => true)

/-- Modelled from the spec: acceptance by a transport's own level filter
alone, used for the exception/rejection destinations, which winston feeds
directly, bypassing the logger-level gate ("these bypass the normal
minimum-level filter"). -/
def transportAcceptsOwn (t : TransportSpec) (s : Level) : Bool :=
  match t.minLevel with
  | some l => decide (priorityOf s ≤ priorityOf l)
  | none => true

/-! ## Log records and the file encoding -/

/-- A record as emitted by a call such as `logger.info(message, meta)`. -/
structure LogRecord where
  level : Level
  message : String
  meta : List (String × JVal)

/-- First binding of a key in an association list of JSON members. -/
def lookupKey (k : String) : List (String × JVal) → Option JVal
  | [] => none
  | (k2, v) :: fs => if k2 = k then some v else lookupKey k fs

/-- Key-membership test. -/
def hasKey (k : String) (fs : List (String × JVal)) : Bool := (lookupKey k fs).isSome

/-- The reserved members the pipeline contributes to the written object:
the record's level and message, and the timestamp added by
`timestamp(\x7b format: 'YYYY-MM-DD HH:mm:ss' \x7d)`. -/
def reservedFields (ts : String) (r : LogRecord) : List (String × JVal) :=
  [("level", .str (levelName r.level)), ("message", .str r.message),
   ("timestamp", .str ts)]

/-- Modelled from the spec: the merged object the JSON encoding writes
(winston builds it internally) — "a single-line structured object containing
at minimum timestamp, level, message, and all metadata keys flattened into
the same object (metadata keys collide with reserved keys silently
overwritten by metadata)". -/
def infoObj (ts : String) (r : LogRecord) : List (String × JVal) :=
  (reservedFields ts r).filter (fun kv => !hasKey kv.1 r.meta) ++ r.meta

/-- Encoding choice of the file transports: the source's
`fileFormat = combine(baseFormat, json())` never consults the configured
format string, so file output is JSON for every configuration. -/
def fileEncodingOf (_cfgFormat : String) : Encoding := .json

/-- Encoding choice of the console transport: pretty exactly when the
configured format string is "pretty" (`logConfig.format === 'pretty'`). -/
def consoleEncodingOf (cfgFormat : String) : Encoding :=
  if cfgFormat = "pretty" then .pretty else .json

/-- The ANSI open code `colorize()` (winston, an external library) uses for
each npm level, per winston's `config.npm.colors` table (error red, warn
yellow, info green, http green, verbose cyan, debug blue, silly magenta). -/
def ansiOpen : Level → String
  | .error => "\x1b[31m"
  | .warn => "\x1b[33m"
  | .info => "\x1b[32m"
  | .http => "\x1b[32m"
  | .verbose => "\x1b[36m"
  | .debug => "\x1b[34m"
  | .silly => "\x1b[35m"

/-- The ANSI code closing a foreground color. -/
def ansiClose : String := "\x1b[39m"

/-- The `colorize()` step of the source's console pipeline
`combine(baseFormat, colorize(), align(), prettyFormat)`: it replaces the
record's level field with the level name wrapped in its ANSI color codes. -/
def colorizeLevel (l : Level) : String := ansiOpen l ++ levelName l ++ ansiClose

/-- The `align()` step of the same pipeline: it replaces the record's message
field with the message prefixed by one tab character. -/
def alignMessage (msg : String) : String := "\t" ++ msg

/-- The line the console destination renders for a record under the pretty
pipeline: `prettyFormat` applied after `colorize()` and `align()` have
transformed the level and message fields. -/
def consolePrettyLine (ts : String) (r : LogRecord) : String :=
  prettyFormat ⟨ts, colorizeLevel r.level, alignMessage r.message, r.meta⟩

/-- Render one record under an encoding, with the timestamp the base format
attached: JSON for the file pipeline, the colorize/align/printf pipeline for
the pretty console. -/
def encodeRecord : Encoding → String → LogRecord → String
  | .json, ts, r => jsonRender (.obj (infoObj ts r))
  | .pretty, ts, r => consolePrettyLine ts r

/-- The line a file destination writes for an accepted record. -/
def fileLine (cfgFormat : String) (ts : String) (r : LogRecord) : String :=
  encodeRecord (fileEncodingOf cfgFormat) ts r

/-! ## Process fault capture, morgan stream, and the middlewares -/

/-- An error object: message, stack, name. -/
structure ErrInfo where
  message : String
  stack : String
  name : String

/-- Modelled from the spec: each observed uncaught exception or unhandled
rejection makes winston's handler write exactly one record to the dedicated
destination ("receive exactly one record each time the process observes an
uncaught synchronous fault or an unhandled asynchronous rejection"). -/
def faultCaptureEmissions (fault : ErrInfo) : List LogRecord :=
  [{ level := .error, message := fault.message, meta := [("stack", .str fault.stack)] }]

/-- One emission into the shared logger sink. -/
structure Emission where
  level : Level
  message : String
  meta : List (String × JVal)

/-- The `logStream` object of `src/utils/logger.ts`: its single
`write(message)` runs `logger.http(message.trim())`. -/
def logStream_write (message : String) : Emission :=
  { level := .http, message := jsTrim message, meta := [] }

/-- The request data the middlewares read. -/
structure ReqInfo where
  method : String
  url : String
  headers : JVal
  query : JVal
  body : JVal
  ip : String

/-- The `errorLogger` middleware of `src/middlewares/httpLogger.ts`: logs one
error-severity record carrying the error's message/stack/name and the
request's method/url/headers/query/body/ip, then calls `next(err)` with the
same error. The first component is the single record the middleware logs; the
second is the value passed to `next`. -/
def errorLogger (err : ErrInfo) (req : ReqInfo) : Emission × ErrInfo :=
  ({ level := .error, message := "Request error",
     meta := [("error", .obj [("message", .str err.message), ("stack", .str err.stack),
              ("name", .str err.name)]),
              ("request", .obj [("method", .str req.method), ("url", .str req.url),
               ("headers", req.headers), ("query", req.query),
               ("body", req.body), ("ip", .str req.ip)])] },
   err)

/-- Two-level lookup into nested JSON members. -/
def lookupPath (fields : List (String × JVal)) (k1 k2 : String) : Option JVal :=
  match lookupKey k1 fields with
  | some (.obj fs) => lookupKey k2 fs
  | _ => none

/-- The replacement `detailedHttpLogger` installs for `res.end`: it emits one
debug record about the response and then calls the captured original end on
the same receiver with the same chunk/encoding/callback, returning its
result. -/
def detailedResponseEnd {Res Chunk Enc Cb Ret : Type}
    (req : ReqInfo) (statusCode : Nat) (duration : Nat) (resHeaders : JVal)
    (originalEnd : Res → Chunk → Enc → Cb → Ret) :
    Res → Chunk → Enc → Cb → (Emission × Ret) :=
  fun res chunk encoding callback =>
    ({ level := .debug, message := "Outgoing response",
       meta := [("method", .str req.method), ("url", .str req.url),
                ("statusCode", .num (statusCode : Int)),
                ("duration", .str (⟨natRenderChars duration⟩ ++ "ms")),
                ("headers", resHeaders)] },
     originalEnd res chunk encoding callback)

/-! ## Configuration loading (`config/index.js`) -/

/-- ASCII lower-casing of one character, as JS `toLowerCase` acts on the
environment names used here. -/
def lowerChar (c : Char) : Char :=
  if 65 ≤ c.toNat && c.toNat ≤ 90 then Char.ofNat (c.toNat + 32) else c

/-- ASCII lower-casing of a string (JS `toLowerCase`). -/
def strToLower (s : String) : String := ⟨s.data.map lowerChar⟩

/-- Which configuration file `loadConfig` selects for an environment name
(the `switch (env.toLowerCase())` in the source). -/
def selectConfigFile (env : String) : String :=
  if strToLower env = "production" then "./production.js"
  else if strToLower env = "staging" then "./staging.js"
  else if strToLower env = "test" then "./test.js"
  else "./development.js"

/-- The `loadConfig` function of `config/index.js`: `require` the selected
file; if that throws, fall back to `require('./development.js')`.
`requireFile` returns `none` when loading a file throws; a `none` result
means the module itself throws, aborting process start. -/
def loadConfig {Cfg : Type} (env : String) (requireFile : String → Option Cfg) : Option Cfg :=
  match requireFile (selectConfigFile env) with
  | some config => some config
  | none => requireFile "./development.js"

/-! ## Theorems -/

theorem jsTrim_eq_tail_head (s : String) : jsTrim s = jsTrimTail (jsTrimHead s) := rfl

theorem digit_spec (d : Nat) (hd : d < 10) :
    isDigitCh (digitChar d) = true ∧ digitVal (digitChar d) = d := by
  interval_cases d <;> exact ⟨by decide, by decide⟩

theorem natDigitsAux_builds (f : Nat) :
    ∀ n, n < f → natDigitsAux f n ≠ [] ∧ ∀ c ∈ natDigitsAux f n, isDigitCh c = true := by
  induction f with
  | zero => intro n hn; omega
  | succ f ih =>
    intro n hn
    by_cases h10 : n < 10
    · refine ⟨by simp [natDigitsAux, h10], ?_⟩
      intro c hc
      simp only [natDigitsAux, if_pos h10, List.mem_singleton] at hc
      subst hc
      exact (digit_spec n h10).1
    · have hdiv : n / 10 < f := by
        have h1 : n / 10 < n := Nat.div_lt_self (by omega) (by omega)
        omega
      obtain ⟨hne, hall⟩ := ih (n / 10) hdiv
      constructor
      · simp [natDigitsAux, h10]
      · intro c hc
        simp only [natDigitsAux, if_neg h10, List.mem_append, List.mem_singleton] at hc
        rcases hc with hc | hc
        · exact hall c hc
        · subst hc; exact (digit_spec (n % 10) (Nat.mod_lt n (by omega))).1

theorem parseDigitsAux_run (ds : List Char) (hds : ∀ c ∈ ds, isDigitCh c = true) :
    ∀ rest acc, parseDigitsAux (ds ++ rest) acc = parseDigitsAux rest (foldDigits acc ds) := by
  induction ds with
  | nil => intro rest acc; rfl
  | cons c cs ih =>
    intro rest acc
    have hc : isDigitCh c = true := hds c (List.mem_cons_self c cs)
    have hcs : ∀ x ∈ cs, isDigitCh x = true := fun x hx => hds x (List.mem_cons_of_mem c hx)
    simp only [List.cons_append, parseDigitsAux, if_pos hc, foldDigits, List.foldl_cons]
    exact ih hcs rest (acc * 10 + digitVal c)

theorem parseDigitsAux_stop (rest : List Char) (acc : Nat)
    (hr : notDigitHead rest = true) : parseDigitsAux rest acc = (acc, rest) := by
  cases rest with
  | nil => rfl
  | cons c cs =>
    simp only [notDigitHead, Bool.not_eq_true'] at hr
    simp [parseDigitsAux, hr]

theorem foldDigits_natDigitsAux (f : Nat) :
    ∀ n acc, n < f →
      foldDigits acc (natDigitsAux f n) = acc * 10 ^ (natDigitsAux f n).length + n := by
  induction f with
  | zero => intro n acc hn; omega
  | succ f ih =>
    intro n acc hn
    by_cases h10 : n < 10
    · simp only [natDigitsAux, if_pos h10, foldDigits, List.foldl_cons, List.foldl_nil,
        List.length_singleton, pow_one]
      rw [(digit_spec n h10).2]
    · have hdiv : n / 10 < f := by
        have h1 : n / 10 < n := Nat.div_lt_self (by omega) (by omega)
        omega
      simp only [natDigitsAux, if_neg h10, foldDigits, List.foldl_append, List.foldl_cons,
        List.foldl_nil, List.length_append, List.length_singleton]
      have hIH := ih (n / 10) acc hdiv
      simp only [foldDigits] at hIH
      rw [hIH, (digit_spec (n % 10) (Nat.mod_lt n (by omega))).2]
      have hpow : 10 ^ ((natDigitsAux f (n / 10)).length + 1)
          = 10 ^ (natDigitsAux f (n / 10)).length * 10 := pow_succ 10 _
      rw [hpow]
      have := Nat.div_add_mod n 10
      ring_nf
      omega

theorem parseNat_render (n : Nat) (rest : List Char) (hr : notDigitHead rest = true) :
    parseNat (natRenderChars n ++ rest) = some (n, rest) := by
  obtain ⟨hne0, hall0⟩ := natDigitsAux_builds (n + 1) n (Nat.lt_succ_self n)
  have hne : natRenderChars n ≠ [] := hne0
  have hall : ∀ c ∈ natRenderChars n, isDigitCh c = true := hall0
  have hfold : foldDigits 0 (natRenderChars n) = n := by
    have := foldDigits_natDigitsAux (n + 1) n 0 (Nat.lt_succ_self n)
    simpa [natRenderChars] using this
  rcases hcs : natRenderChars n with _ | ⟨c, cs⟩
  · exact absurd hcs hne
  · have hc : isDigitCh c = true := hall c (by rw [hcs]; exact List.mem_cons_self c cs)
    have hrun := parseDigitsAux_run (natRenderChars n) hall rest 0
    rw [hcs] at hrun
    simp only [List.cons_append, parseNat, if_pos hc]
    rw [show (c :: (cs ++ rest)) = (c :: cs) ++ rest from rfl, hrun,
      parseDigitsAux_stop rest _ hr]
    rw [hcs] at hfold
    rw [hfold]

theorem parseStrBody_escList (s : List Char) :
    ∀ rest : List Char, parseStrBody (escList s ++ '"' :: rest) = some (s, rest) := by
  induction s with
  | nil =>
    intro rest
    show parseStrBody ('"' :: rest) = some ([], rest)
    rw [parseStrBody.eq_def]; rfl
  | cons c cs ih =>
    intro rest
    by_cases h1 : c = '"'
    · subst h1
      have he : escList ('"' :: cs) ++ '"' :: rest = '\\' :: '"' :: (escList cs ++ '"' :: rest) := by
        simp [escList, escChar]
      rw [he, parseStrBody.eq_def]
      simp [unescChar, ih]
    · by_cases h2 : c = '\\'
      · subst h2
        have he : escList ('\\' :: cs) ++ '"' :: rest
            = '\\' :: '\\' :: (escList cs ++ '"' :: rest) := by
          simp [escList, escChar]
        rw [he, parseStrBody.eq_def]
        simp [unescChar, ih]
      · by_cases h3 : c = '\n'
        · subst h3
          have he : escList ('\n' :: cs) ++ '"' :: rest
              = '\\' :: 'n' :: (escList cs ++ '"' :: rest) := by
            simp [escList, escChar]
          rw [he, parseStrBody.eq_def]
          simp [unescChar, ih]
        · by_cases h4 : c = '\r'
          · subst h4
            have he : escList ('\r' :: cs) ++ '"' :: rest
                = '\\' :: 'r' :: (escList cs ++ '"' :: rest) := by
              simp [escList, escChar]
            rw [he, parseStrBody.eq_def]
            simp [unescChar, ih]
          · by_cases h5 : c = '\t'
            · subst h5
              have he : escList ('\t' :: cs) ++ '"' :: rest
                  = '\\' :: 't' :: (escList cs ++ '"' :: rest) := by
                simp [escList, escChar]
              rw [he, parseStrBody.eq_def]
              simp [unescChar, ih]
            · have he : escList (c :: cs) ++ '"' :: rest
                  = c :: (escList cs ++ '"' :: rest) := by
                simp [escList, escChar, h1, h2, h3, h4, h5]
              rw [he, parseStrBody.eq_def]
              simp [h1, h2, ih]

theorem digit_not_lit {c : Char} (h : isDigitCh c = true) :
    c ≠ 'n' ∧ c ≠ 't' ∧ c ≠ 'f' ∧ c ≠ '"' ∧ c ≠ '[' ∧ c ≠ '\x7b' ∧ c ≠ '-' ∧ c ≠ ']' := by
  refine ⟨?_, ?_, ?_, ?_, ?_, ?_, ?_, ?_⟩ <;>
    (intro he; subst he; exact absurd h (by decide))

/-- Every rendered value begins with some character other than `]`. -/
theorem renderChars_head (v : JVal) :
    ∃ c t, renderChars v = c :: t ∧ c ≠ ']' := by
  cases v with
  | null => exact ⟨'n', _, rfl, by decide⟩
  | bool b => cases b with
    | true => exact ⟨'t', _, rfl, by decide⟩
    | false => exact ⟨'f', _, rfl, by decide⟩
  | str s => exact ⟨'"', _, rfl, by decide⟩
  | arr es => exact ⟨'[', _, rfl, by decide⟩
  | obj fs => exact ⟨'\x7b', _, rfl, by decide⟩
  | num n =>
    by_cases hn : n < 0
    · refine ⟨'-', natRenderChars n.natAbs, ?_, by decide⟩
      simp [renderChars, intRenderChars, hn]
    · obtain ⟨hne0, hall0⟩ := natDigitsAux_builds (n.toNat + 1) n.toNat (Nat.lt_succ_self _)
      have hne : natRenderChars n.toNat ≠ [] := hne0
      have hall : ∀ c ∈ natRenderChars n.toNat, isDigitCh c = true := hall0
      rcases hcs : natRenderChars n.toNat with _ | ⟨c, cs⟩
      · exact absurd hcs hne
      · have hc : isDigitCh c = true := hall c (by rw [hcs]; exact List.mem_cons_self c cs)
        exact ⟨c, cs, by simp [renderChars, intRenderChars, hn, hcs], (digit_not_lit hc).2.2.2.2.2.2.2⟩

theorem jsizeV_pos (v : JVal) : 1 ≤ jsizeV v := by
  cases v <;> simp [jsizeV] <;> omega

theorem notDigitHead_cons (c : Char) (r : List Char) (h : isDigitCh c = false) :
    notDigitHead (c :: r) = true := by
  simp [notDigitHead, h]

/-- Step equation for `parseVal` at positive fuel, provable by reduction. -/
theorem parseVal_succ (g : Nat) (c : Char) (input : List Char) :
    parseVal (g + 1) (c :: input) =
      (if c = 'n' then
        match input with
        | 'u' :: 'l' :: 'l' :: r => some (.null, r)
        | _ => none
      else if c = 't' then
        match input with
        | 'r' :: 'u' :: 'e' :: r => some (.bool true, r)
        | _ => none
      else if c = 'f' then
        match input with
        | 'a' :: 'l' :: 's' :: 'e' :: r => some (.bool false, r)
        | _ => none
      else if c = '"' then
        match parseStrBody input with
        | some (s, r) => some (.str ⟨s⟩, r)
        | none => none
      else if c = '[' then
        match parseElems g input with
        | some (vs, r) => some (.arr vs, r)
        | none => none
      else if c = '\x7b' then
        match parseFields g input with
        | some (fs, r) => some (.obj fs, r)
        | none => none
      else if c = '-' then
        match parseNat input with
        | some (m, r) => some (.num (-(m : Int)), r)
        | none => none
      else if isDigitCh c then
        match parseNat (c :: input) with
        | some (m, r) => some (.num (m : Int), r)
        | none => none
      else none) := rfl

/-- Step equation for `parseElems` at positive fuel, provable by reduction. -/
theorem parseElems_succ (g : Nat) (c : Char) (input : List Char) :
    parseElems (g + 1) (c :: input) =
      (if c = ']' then some ([], input)
      else
        match parseVal g (c :: input) with
        | some (v, ',' :: r2) =>
          match parseElems g r2 with
          | some (vs, r3) => some (v :: vs, r3)
          | none => none
        | some (v, ']' :: r2) => some ([v], r2)
        | _ => none) := rfl

/-- Step equation for `parseFields` at positive fuel, provable by reduction. -/
theorem parseFields_succ (g : Nat) (c : Char) (input : List Char) :
    parseFields (g + 1) (c :: input) =
      (if c = '\x7d' then some ([], input)
      else if c = '"' then
        match parseStrBody input with
        | some (k, ':' :: r2) =>
          match parseVal g r2 with
          | some (v, ',' :: r3) =>
            match parseFields g r3 with
            | some (fs, r4) => some ((⟨k⟩, v) :: fs, r4)
            | none => none
          | some (v, '\x7d' :: r3) => some ([(⟨k⟩, v)], r3)
          | _ => none
        | _ => none
      else none) := rfl

/-- The renderer/parser round trip, stated for all three mutual parsers at
once and proved by induction on the fuel. -/
theorem parseRoundTrip : ∀ g : Nat,
    (∀ (v : JVal) (rest : List Char), jsizeV v ≤ g → notDigitHead rest = true →
      parseVal g (renderChars v ++ rest) = some (v, rest)) ∧
    (∀ (es : List JVal) (rest : List Char), jsizeElems es + 1 ≤ g →
      parseElems g (renderElems es ++ ']' :: rest) = some (es, rest)) ∧
    (∀ (fs : List (String × JVal)) (rest : List Char), jsizeFields fs + 1 ≤ g →
      parseFields g (renderFields fs ++ '\x7d' :: rest) = some (fs, rest)) := by
  intro g
  induction g with
  | zero =>
    refine ⟨?_, ?_, ?_⟩
    · intro v rest hsz _; have := jsizeV_pos v; omega
    · intro es rest hsz; omega
    · intro fs rest hsz; omega
  | succ g ih =>
    obtain ⟨ihV, ihE, ihF⟩ := ih
    refine ⟨?_, ?_, ?_⟩
    · -- values
      intro v rest hsz hrest
      cases v with
      | null => rfl
      | bool b => cases b <;> rfl
      | str s =>
        cases s with
        | mk cs =>
          have h : renderChars (.str ⟨cs⟩) ++ rest = '"' :: (escList cs ++ '"' :: rest) := by
            rw [show renderChars (.str ⟨cs⟩) = '"' :: (escList cs ++ ['"']) from rfl]
            simp
          rw [h, parseVal_succ]
          simp [parseStrBody_escList]
      | num n =>
        by_cases hn : n < 0
        · have h : renderChars (.num n) ++ rest = '-' :: (natRenderChars n.natAbs ++ rest) := by
            rw [show renderChars (.num n) = intRenderChars n from rfl]
            simp [intRenderChars, hn]
          rw [h, parseVal_succ]
          simp [parseNat_render n.natAbs rest hrest]
          rw [abs_of_neg hn]
          omega
        · obtain ⟨hne0, hall0⟩ := natDigitsAux_builds (n.toNat + 1) n.toNat (Nat.lt_succ_self _)
          have hne : natRenderChars n.toNat ≠ [] := hne0
          have hall : ∀ c ∈ natRenderChars n.toNat, isDigitCh c = true := hall0
          rcases hcs : natRenderChars n.toNat with _ | ⟨c, cs⟩
          · exact absurd hcs hne
          · have hc : isDigitCh c = true := hall c (by rw [hcs]; exact List.mem_cons_self c cs)
            obtain ⟨q1, q2, q3, q4, q5, q6, q7, _⟩ := digit_not_lit hc
            have h : renderChars (.num n) ++ rest = c :: (cs ++ rest) := by
              rw [show renderChars (.num n) = intRenderChars n from rfl]
              simp [intRenderChars, hn, hcs]
            have h2 : (c :: (cs ++ rest)) = natRenderChars n.toNat ++ rest := by
              rw [hcs]; rfl
            have hPos : ((n.toNat : Nat) : Int) = n := by omega
            rw [h, parseVal_succ]
            simp only [q1, q2, q3, q4, q5, q6, q7, hc, if_neg, if_pos, if_true, if_false,
              ite_false, ite_true]
            rw [h2, parseNat_render n.toNat rest hrest]
            simp [hPos]
      | arr es =>
        have h : renderChars (.arr es) ++ rest = '[' :: (renderElems es ++ ']' :: rest) := by
          rw [show renderChars (.arr es) = '[' :: (renderElems es ++ [']']) from rfl]
          simp
        have hszE : jsizeElems es + 1 ≤ g := by
          rw [show jsizeV (.arr es) = 2 + jsizeElems es from rfl] at hsz; omega
        have hE := ihE es rest hszE
        rw [h, parseVal_succ]
        simp [hE]
      | obj fs =>
        have h : renderChars (.obj fs) ++ rest = '\x7b' :: (renderFields fs ++ '\x7d' :: rest) := by
          rw [show renderChars (.obj fs) = '\x7b' :: (renderFields fs ++ ['\x7d']) from rfl]
          simp
        have hszF : jsizeFields fs + 1 ≤ g := by
          rw [show jsizeV (.obj fs) = 2 + jsizeFields fs from rfl] at hsz; omega
        have hF := ihF fs rest hszF
        rw [h, parseVal_succ]
        simp [hF]
    · -- array elements
      intro es rest hsz
      cases es with
      | nil => rfl
      | cons v vs =>
        obtain ⟨c, t, hct, hcne⟩ := renderChars_head v
        have hvpos := jsizeV_pos v
        cases vs with
        | nil =>
          have hszV : jsizeV v ≤ g := by
            rw [show jsizeElems [v] = 1 + jsizeV v + 0 from rfl] at hsz; omega
          have hV := ihV v (']' :: rest) hszV (notDigitHead_cons _ _ (by decide))
          have h : renderElems [v] ++ ']' :: rest = c :: (t ++ ']' :: rest) := by
            rw [show renderElems [v] = renderChars v from rfl, hct]
            simp
          have h2 : (c :: (t ++ ']' :: rest)) = renderChars v ++ ']' :: rest := by
            rw [hct]; rfl
          rw [h, parseElems_succ]
          rw [if_neg hcne, h2, hV]
          rfl
        | cons w ws =>
          have hsz2 : jsizeV v + (jsizeElems (w :: ws) + 1) ≤ g := by
            rw [show jsizeElems (v :: w :: ws)
                = 1 + jsizeV v + jsizeElems (w :: ws) from rfl] at hsz
            omega
          have hszV : jsizeV v ≤ g := by omega
          have hszE : jsizeElems (w :: ws) + 1 ≤ g := by omega
          have hV := ihV v (',' :: (renderElems (w :: ws) ++ ']' :: rest)) hszV
            (notDigitHead_cons _ _ (by decide))
          have hE := ihE (w :: ws) rest hszE
          have h : renderElems (v :: w :: ws) ++ ']' :: rest
              = c :: (t ++ ',' :: (renderElems (w :: ws) ++ ']' :: rest)) := by
            rw [show renderElems (v :: w :: ws)
                = renderChars v ++ ',' :: renderElems (w :: ws) from rfl, hct]
            simp
          have h2 : (c :: (t ++ ',' :: (renderElems (w :: ws) ++ ']' :: rest)))
              = renderChars v ++ ',' :: (renderElems (w :: ws) ++ ']' :: rest) := by
            rw [hct]; rfl
          rw [h, parseElems_succ]
          rw [if_neg hcne, h2, hV]
          simp [hE]
    · -- object members
      intro fs rest hsz
      cases fs with
      | nil => rfl
      | cons kv fs =>
        obtain ⟨k, v⟩ := kv
        cases k with
        | mk kcs =>
          have hvpos := jsizeV_pos v
          cases fs with
          | nil =>
            have hszV : jsizeV v ≤ g := by
              rw [show jsizeFields [(⟨kcs⟩, v)] = 1 + jsizeV v + 0 from rfl] at hsz; omega
            have hV := ihV v ('\x7d' :: rest) hszV (notDigitHead_cons _ _ (by decide))
            have h : renderFields [(⟨kcs⟩, v)] ++ '\x7d' :: rest
                = '"' :: (escList kcs ++ '"' :: (':' :: (renderChars v ++ '\x7d' :: rest))) := by
              rw [show renderFields [(⟨kcs⟩, v)]
                  = strLitChars ⟨kcs⟩ ++ ':' :: renderChars v from rfl,
                show strLitChars ⟨kcs⟩ = '"' :: (escList kcs ++ ['"']) from rfl]
              simp
            rw [h, parseFields_succ]
            have hk := parseStrBody_escList kcs (':' :: (renderChars v ++ '\x7d' :: rest))
            simp only [if_neg (by decide : ¬ ('"' : Char) = '\x7d'),
              if_pos (rfl : ('"' : Char) = '"'), hk]
            rw [hV]
            rfl
          | cons kv2 fs2 =>
            have hsz2 : jsizeV v + (jsizeFields (kv2 :: fs2) + 1) ≤ g := by
              rw [show jsizeFields ((⟨kcs⟩, v) :: kv2 :: fs2)
                  = 1 + jsizeV v + jsizeFields (kv2 :: fs2) from rfl] at hsz
              omega
            have hszV : jsizeV v ≤ g := by omega
            have hszF : jsizeFields (kv2 :: fs2) + 1 ≤ g := by omega
            have hV := ihV v (',' :: (renderFields (kv2 :: fs2) ++ '\x7d' :: rest)) hszV
              (notDigitHead_cons _ _ (by decide))
            have hF := ihF (kv2 :: fs2) rest hszF
            have h : renderFields ((⟨kcs⟩, v) :: kv2 :: fs2) ++ '\x7d' :: rest
                = '"' :: (escList kcs ++ '"' ::
                    (':' :: (renderChars v ++ ',' :: (renderFields (kv2 :: fs2) ++ '\x7d' :: rest)))) := by
              rw [show renderFields ((⟨kcs⟩, v) :: kv2 :: fs2)
                  = strLitChars ⟨kcs⟩ ++ ':' :: renderChars v ++ ',' :: renderFields (kv2 :: fs2) from rfl,
                show strLitChars ⟨kcs⟩ = '"' :: (escList kcs ++ ['"']) from rfl]
              simp
            rw [h, parseFields_succ]
            have hk := parseStrBody_escList kcs
              (':' :: (renderChars v ++ ',' :: (renderFields (kv2 :: fs2) ++ '\x7d' :: rest)))
            simp only [if_neg (by decide : ¬ ('"' : Char) = '\x7d'),
              if_pos (rfl : ('"' : Char) = '"'), hk]
            rw [hV]
            simp [hF]

mutual

/-- The parsing fuel needed for a value is at most twice its rendered length. -/
theorem jsizeV_le : ∀ v : JVal, jsizeV v ≤ 2 * (renderChars v).length
  | .null => by
    rw [show renderChars .null = ['n', 'u', 'l', 'l'] from rfl]
    rw [show jsizeV .null = 1 from rfl]
    simp
  | .bool b => by
    cases b with
    | true =>
      rw [show renderChars (.bool true) = ['t', 'r', 'u', 'e'] from rfl]
      rw [show jsizeV (.bool true) = 1 from rfl]
      simp
    | false =>
      rw [show renderChars (.bool false) = ['f', 'a', 'l', 's', 'e'] from rfl]
      rw [show jsizeV (.bool false) = 1 from rfl]
      simp
  | .num n => by
    rw [show renderChars (.num n) = intRenderChars n from rfl]
    rw [show jsizeV (.num n) = 1 from rfl]
    by_cases hn : n < 0
    · simp [intRenderChars, hn]
      omega
    · have hne : natRenderChars n.toNat ≠ [] :=
        (natDigitsAux_builds (n.toNat + 1) n.toNat (Nat.lt_succ_self _)).1
      have hpos : 0 < (natRenderChars n.toNat).length := List.length_pos.mpr hne
      simp only [intRenderChars, if_neg hn]
      omega
  | .str s => by
    rw [show renderChars (.str s) = strLitChars s from rfl]
    rw [show jsizeV (.str s) = 1 from rfl]
    rw [show strLitChars s = '"' :: (escList s.data ++ ['"']) from rfl]
    simp
    omega
  | .arr es => by
    have h := jsizeElems_le es
    rw [show renderChars (.arr es) = '[' :: (renderElems es ++ [']']) from rfl]
    rw [show jsizeV (.arr es) = 2 + jsizeElems es from rfl]
    simp only [List.length_cons, List.length_append, List.length_singleton]
    omega
  | .obj fs => by
    have h := jsizeFields_le fs
    rw [show renderChars (.obj fs) = '\x7b' :: (renderFields fs ++ ['\x7d']) from rfl]
    rw [show jsizeV (.obj fs) = 2 + jsizeFields fs from rfl]
    simp only [List.length_cons, List.length_append, List.length_singleton]
    omega

/-- The parsing fuel needed for an element list is at most twice its rendered
length plus two. -/
theorem jsizeElems_le : ∀ es : List JVal, jsizeElems es ≤ 2 * (renderElems es).length + 2
  | [] => by
    rw [show jsizeElems [] = 0 from rfl]
    omega
  | [v] => by
    have h := jsizeV_le v
    rw [show jsizeElems [v] = 1 + jsizeV v + 0 from rfl]
    rw [show renderElems [v] = renderChars v from rfl]
    omega
  | v :: w :: ws => by
    have h1 := jsizeV_le v
    have h2 := jsizeElems_le (w :: ws)
    rw [show jsizeElems (v :: w :: ws) = 1 + jsizeV v + jsizeElems (w :: ws) from rfl]
    rw [show renderElems (v :: w :: ws)
        = renderChars v ++ ',' :: renderElems (w :: ws) from rfl]
    simp only [List.length_append, List.length_cons]
    omega

/-- The parsing fuel needed for a member list is at most twice its rendered
length plus two. -/
theorem jsizeFields_le : ∀ fs : List (String × JVal),
    jsizeFields fs ≤ 2 * (renderFields fs).length + 2
  | [] => by
    rw [show jsizeFields [] = 0 from rfl]
    omega
  | [(k, v)] => by
    have h := jsizeV_le v
    rw [show jsizeFields [(k, v)] = 1 + jsizeV v + 0 from rfl]
    rw [show renderFields [(k, v)] = strLitChars k ++ ':' :: renderChars v from rfl]
    simp only [List.length_append, List.length_cons]
    omega
  | (k, v) :: f :: fs => by
    have h1 := jsizeV_le v
    have h2 := jsizeFields_le (f :: fs)
    rw [show jsizeFields ((k, v) :: f :: fs)
        = 1 + jsizeV v + jsizeFields (f :: fs) from rfl]
    rw [show renderFields ((k, v) :: f :: fs)
        = strLitChars k ++ ':' :: renderChars v ++ ',' :: renderFields (f :: fs) from rfl]
    simp only [List.length_append, List.length_cons]
    omega

end

/-- Rendering any JSON value and parsing it back returns exactly that value. -/
theorem jsonParse_render (v : JVal) : jsonParse (jsonRender v) = some v := by
  have hsz := jsizeV_le v
  have h := (parseRoundTrip (2 * (renderChars v).length + 2)).1 v []
    (by omega) (by rfl)
  simp only [List.append_nil] at h
  show (match parseVal (2 * (renderChars v).length + 2) (renderChars v) with
    | some (v, []) => some v
    | _ => none) = some v
  rw [h]

/-! ## Claim theorems -/

/-- C2: the access-log skip predicate returns true exactly when the request
URL starts with one of the fixed exclusion-list entries (the health-check,
metrics, or favicon endpoints), or the URL contains the substring "health"
and the response status code is exactly 200; otherwise it returns false. -/
theorem C2_skip_characterization (url : String) (status : Nat) :
    shouldSkipLog url status = true ↔
      ((strStarts url "/health" = true ∨ strStarts url "/metrics" = true ∨
        strStarts url "/favicon.ico" = true) ∨
       (strHasSub url "health" = true ∧ status = 200)) := by
  have hlist : skipRoutes.any (fun route => strStarts url route)
      = (strStarts url "/health" || (strStarts url "/metrics" ||
          strStarts url "/favicon.ico")) := by
    simp [skipRoutes, List.any_cons, List.any_nil]
  by_cases hA : (strStarts url "/health" || (strStarts url "/metrics" ||
      strStarts url "/favicon.ico")) = true
  · have hA2 : strStarts url "/health" = true ∨ strStarts url "/metrics" = true ∨
        strStarts url "/favicon.ico" = true := by
      simpa [Bool.or_eq_true] using hA
    simp [shouldSkipLog, hlist, hA, hA2]
  · have hA2 : ¬ (strStarts url "/health" = true ∨ strStarts url "/metrics" = true ∨
        strStarts url "/favicon.ico" = true) := by
      simpa [Bool.or_eq_true] using hA
    have hAf : (strStarts url "/health" || (strStarts url "/metrics" ||
        strStarts url "/favicon.ico")) = false := by
      simpa using hA
    by_cases hB : (strHasSub url "health" && (status == 200)) = true
    · have hB2 : strHasSub url "health" = true ∧ status = 200 := by
        simpa [Bool.and_eq_true] using hB
      simp [shouldSkipLog, hlist, hAf, hB, hA2, hB2]
    · have hBf : (strHasSub url "health" && (status == 200)) = false := by
        simpa using hB
      have hB2 : ¬ (strHasSub url "health" = true ∧ status = 200) := by
        simpa [Bool.and_eq_true] using hB
      simp [shouldSkipLog, hlist, hAf, hBf, hA2, hB2]

/-- C1 counterexample: the request `/health` with status 500 is health-like
and non-200, yet the skip predicate returns true and zero access-log lines
are emitted (the prefix rule fires before the status is consulted). -/
theorem C1_counterexample :
    strHasSub "/health" "health" = true ∧ (500 : Nat) ≠ 200 ∧
      shouldSkipLog "/health" 500 = true ∧ accessLogEmissions "/health" 500 = 0 := by
  refine ⟨by decide, by decide, by decide, by decide⟩

/-- C1 (amended): for a request whose URL contains "health" but does not
start with any exclusion-list entry, the skip predicate returns true exactly
when the status is 200, so a non-200 status yields exactly one emission;
URLs starting with an exclusion-list entry (such as `/health` itself) are
always suppressed regardless of status. -/
theorem C1_health_skip_amended (url : String) (status : Nat)
    (hsub : strHasSub url "health" = true)
    (hpre : skipRoutes.any (fun route => strStarts url route) = false) :
    (shouldSkipLog url status = true ↔ status = 200) ∧
      (accessLogEmissions url status = 1 ↔ status ≠ 200) := by
  by_cases h : status = 200
  · subst h
    simp [shouldSkipLog, accessLogEmissions, hpre, hsub]
  · simp [shouldSkipLog, accessLogEmissions, hpre, hsub, h]

/-- Witness for C1: `/api/health` with status 500 is logged once. -/
theorem C1_health_skip_witness :
    shouldSkipLog "/api/health" 500 = false ∧ accessLogEmissions "/api/health" 500 = 1 := by
  have h := C1_health_skip_amended "/api/health" 500 (by decide) (by decide)
  constructor
  · have h1 : shouldSkipLog "/api/health" 500 ≠ true := fun hh => by
      have := h.1.mp hh
      omega
    exact Bool.eq_false_iff.mpr h1
  · exact h.2.mpr (by omega)

/-- C5 counterexample: with the production config file failing to load and a
loadable development config, `loadConfig "production"` returns the
development configuration instead of aborting. -/
theorem C5_counterexample :
    (fun file => if file = "./development.js" then some 0 else none)
        (selectConfigFile "production") = (none : Option Nat) ∧
    loadConfig "production" (fun file => if file = "./development.js" then some 0 else none)
      = some 0 := by
  refine ⟨by decide, by decide⟩

/-- C5 (amended): when the environment-selected configuration file fails to
load, `loadConfig` falls back to the development configuration file; the
operation fails (aborting process start) only when that fallback also fails
to load. -/
theorem C5_loadConfig_fallback {Cfg : Type} (env : String)
    (requireFile : String → Option Cfg) :
    loadConfig env requireFile
      = (requireFile (selectConfigFile env)).orElse
          (fun _ => requireFile "./development.js") ∧
    (loadConfig env requireFile = none ↔
      requireFile (selectConfigFile env) = none ∧
        requireFile "./development.js" = none) := by
  constructor
  · cases h : requireFile (selectConfigFile env) <;>
      simp [loadConfig, h, Option.orElse]
  · cases h : requireFile (selectConfigFile env) <;> simp [loadConfig, h]

/-- C6: the exception-capture and rejection-capture destinations are
registered without any level option, their own filter accepts every
severity, and each observed fault produces exactly one record. -/
theorem C6_fault_capture (cfgOpt : Option LogCfg) (isDev force : Bool) :
    (createLogger cfgOpt isDev force).exceptionsFile.minLevel = none ∧
    (createLogger cfgOpt isDev force).rejectionsFile.minLevel = none ∧
    (∀ s, transportAcceptsOwn (createLogger cfgOpt isDev force).exceptionsFile s = true) ∧
    (∀ s, transportAcceptsOwn (createLogger cfgOpt isDev force).rejectionsFile s = true) ∧
    (∀ fault, (faultCaptureEmissions fault).length = 1) := by
  exact ⟨rfl, rfl, fun _ => rfl, fun _ => rfl, fun _ => rfl⟩

/-- C7 counterexample: the console pretty pipeline includes `colorize()` and
`align()`, so at a concrete record its output carries ANSI codes around the
level and a tab before the message — it is not exactly
`timestamp [level]: message`. -/
theorem C7_console_counterexample :
    consolePrettyLine "2025-12-13 12:47:10"
        { level := .info, message := "User login", meta := [] }
      ≠ "2025-12-13 12:47:10" ++ " [" ++ levelName .info ++ "]: " ++ "User login" ∧
    consolePrettyLine "2025-12-13 12:47:10"
        { level := .info, message := "User login", meta := [] }
      = "2025-12-13 12:47:10 [\x1b[32minfo\x1b[39m]: \tUser login" := by
  refine ⟨by decide, by decide⟩

/-- C7 (amended): the console pretty rendering is exactly
`timestamp [level]: message` with the level wrapped in its ANSI color codes
by `colorize()` and the message prefixed with one alignment tab by
`align()`, followed by a two-space-indented pretty rendering of the metadata
on the next lines exactly when the metadata is non-empty and by nothing
extra when it is empty; the pipeline timestamp pattern is
"YYYY-MM-DD HH:mm:ss". -/
theorem C7_console_pretty_amended (ts : String) (r : LogRecord)
    (cfgOpt : Option LogCfg) (isDev force : Bool) :
    (r.meta = [] →
      consolePrettyLine ts r
        = ts ++ " [" ++ colorizeLevel r.level ++ "]: " ++ alignMessage r.message) ∧
    (r.meta ≠ [] →
      consolePrettyLine ts r
        = (ts ++ " [" ++ colorizeLevel r.level ++ "]: " ++ alignMessage r.message)
            ++ "\n" ++ jsonStringifyIndent2 (.obj r.meta)) ∧
    colorizeLevel r.level = ansiOpen r.level ++ levelName r.level ++ ansiClose ∧
    alignMessage r.message = "\t" ++ r.message ∧
    (createLogger cfgOpt isDev force).timestampPattern = "YYYY-MM-DD HH:mm:ss" := by
  refine ⟨?_, ?_, rfl, rfl, rfl⟩
  · intro h
    simp [consolePrettyLine, prettyFormat, h]
  · intro h
    have hlen : 0 < r.meta.length := List.length_pos.mpr h
    simp [consolePrettyLine, prettyFormat, hlen]

/-- Witness for C7 at concrete records with empty and non-empty metadata. -/
theorem C7_console_pretty_witness :
    consolePrettyLine "2025-12-13 12:47:10"
        { level := .info, message := "User login", meta := [] }
      = "2025-12-13 12:47:10 [\x1b[32minfo\x1b[39m]: \tUser login" ∧
    consolePrettyLine "2025-12-13 12:47:10"
        { level := .info, message := "User login", meta := [("userId", .num 12345)] }
      = "2025-12-13 12:47:10 [\x1b[32minfo\x1b[39m]: \tUser login\n\x7b\n  \"userId\": 12345\n\x7d" := by
  have h1 := C7_console_pretty_amended "2025-12-13 12:47:10"
    { level := .info, message := "User login", meta := [] } none true false
  have h2 := C7_console_pretty_amended "2025-12-13 12:47:10"
    { level := .info, message := "User login", meta := [("userId", .num 12345)] } none true false
  exact ⟨(h1.1 rfl).trans (by decide), (h2.2.1 (by simp)).trans (by decide)⟩

/-- C8 counterexample: on the input `" x"` the write-stream adapter emits
`"x"`, not `" x"` — the source's `trim()` removes leading whitespace too, so
emitting the line with only trailing whitespace trimmed is refuted. -/
theorem C8_counterexample :
    (logStream_write " x").message ≠ jsTrimTail " x" ∧
    (logStream_write " x").message = "x" ∧ jsTrimTail " x" = " x" := by
  refine ⟨by decide, by decide, by decide⟩

/-- C8 (amended): `write(line)` emits at the http severity the line with
leading and trailing whitespace both trimmed, and no extra metadata. -/
theorem C8_logStream_write (line : String) :
    (logStream_write line).level = .http ∧
    (logStream_write line).message = jsTrimTail (jsTrimHead line) ∧
    (logStream_write line).meta = [] := by
  exact ⟨rfl, jsTrim_eq_tail_head line, rfl⟩

/-- C9: the error-forwarding middleware emits one error-severity record
carrying the error's message, stack and name and the request's method, url,
headers, query and body, and passes the very same error object to `next`. -/
theorem C9_errorLogger (err : ErrInfo) (req : ReqInfo) :
    (errorLogger err req).2 = err ∧
    (errorLogger err req).1.level = .error ∧
    (errorLogger err req).1.message = "Request error" ∧
    lookupPath (errorLogger err req).1.meta "error" "message" = some (.str err.message) ∧
    lookupPath (errorLogger err req).1.meta "error" "stack" = some (.str err.stack) ∧
    lookupPath (errorLogger err req).1.meta "error" "name" = some (.str err.name) ∧
    lookupPath (errorLogger err req).1.meta "request" "method" = some (.str req.method) ∧
    lookupPath (errorLogger err req).1.meta "request" "url" = some (.str req.url) ∧
    lookupPath (errorLogger err req).1.meta "request" "headers" = some req.headers ∧
    lookupPath (errorLogger err req).1.meta "request" "query" = some req.query ∧
    lookupPath (errorLogger err req).1.meta "request" "body" = some req.body := by
  exact ⟨rfl, rfl, rfl, rfl, rfl, rfl, rfl, rfl, rfl, rfl, rfl⟩

/-- Looking a key up in an appended member list searches the left part
first. -/
theorem lookupKey_append (k : String) (xs ys : List (String × JVal)) :
    lookupKey k (xs ++ ys)
      = (match lookupKey k xs with
         | some v => some v
         | none => lookupKey k ys) := by
  induction xs with
  | nil => simp [lookupKey]
  | cons kv xs ih =>
    obtain ⟨k2, v2⟩ := kv
    by_cases h : k2 = k
    · simp [lookupKey, h]
    · simp [lookupKey, h, ih]

/-- C4: a record strictly below the configured minimum reaches neither the
combined file nor the error-only file; the error-only file's level is fixed
at `error` whatever the configured level, and it receives exactly the
error-severity records. -/
theorem C4_level_filtering (cfg : LogCfg) (isDev force : Bool) (s : Level) :
    (priorityOf cfg.level < priorityOf s →
      transportReceives (createLogger (some cfg) isDev force)
          (createLogger (some cfg) isDev force).combined s = false ∧
      transportReceives (createLogger (some cfg) isDev force)
          (createLogger (some cfg) isDev force).errorFile s = false) ∧
    (createLogger (some cfg) isDev force).errorFile.minLevel = some .error ∧
    (transportReceives (createLogger (some cfg) isDev force)
        (createLogger (some cfg) isDev force).errorFile s = true ↔ s = .error) := by
  refine ⟨fun hlt => ?_, rfl, ?_, ?_⟩
  · have h1 : ¬ (priorityOf s ≤ priorityOf cfg.level) := by omega
    constructor <;> simp [transportReceives, createLogger, h1]
  · intro h
    simp only [transportReceives, createLogger, Option.getD_some, Bool.and_eq_true,
      decide_eq_true_eq] at h
    have h0 : priorityOf s = 0 := by
      have := h.2
      revert this
      cases s <;> simp [priorityOf]
    cases s <;> simp_all [priorityOf]
  · rintro rfl
    simp [transportReceives, createLogger, priorityOf]

/-- Witness for C4: with configured level `info`, a debug record reaches
neither the combined file nor the error file. -/
theorem C4_level_filtering_witness :
    transportReceives (createLogger (some ⟨.info, "json", "logs", "20m", "14d"⟩) true false)
        (createLogger (some ⟨.info, "json", "logs", "20m", "14d"⟩) true false).combined .debug
      = false ∧
    transportReceives (createLogger (some ⟨.info, "json", "logs", "20m", "14d"⟩) true false)
        (createLogger (some ⟨.info, "json", "logs", "20m", "14d"⟩) true false).errorFile .debug
      = false := by
  exact (C4_level_filtering ⟨.info, "json", "logs", "20m", "14d"⟩ true false .debug).1
    (by decide)

/-- C3 counterexample: a record whose metadata carries the reserved key
"message" has that metadata value, not the record's original message, in
the written object — the object no longer contains the original message. -/
theorem C3_counterexample :
    lookupKey "message" (infoObj "2025-01-01 00:00:00"
        { level := .info, message := "hello", meta := [("message", .str "clobbered")] })
      = some (.str "clobbered") ∧
    jsonParse (fileLine "json" "2025-01-01 00:00:00"
        { level := .info, message := "hello", meta := [("message", .str "clobbered")] })
      = some (.obj (infoObj "2025-01-01 00:00:00"
        { level := .info, message := "hello", meta := [("message", .str "clobbered")] })) ∧
    ¬ lookupKey "message" (infoObj "2025-01-01 00:00:00"
        { level := .info, message := "hello", meta := [("message", .str "clobbered")] })
      = some (.str "hello") := by
  refine ⟨rfl, jsonParse_render _, ?_⟩
  intro h
  simp [infoObj, reservedFields, hasKey, lookupKey] at h

/-- C3 (amended): for every record whose metadata keys avoid the reserved
keys level, message and timestamp, every file destination writes the record
as one machine-readable JSON line whatever the console encoding is, and
parsing it back yields an object carrying the original message, level,
timestamp and all metadata entries unchanged. -/
theorem C3_fileLine_roundTrip (cfgFormat ts : String) (r : LogRecord)
    (cfgOpt : Option LogCfg) (isDev force : Bool)
    (hl : hasKey "level" r.meta = false) (hm : hasKey "message" r.meta = false)
    (hts : hasKey "timestamp" r.meta = false) :
    fileEncodingOf cfgFormat = .json ∧
    (createLogger cfgOpt isDev force).combined.enc = .json ∧
    (createLogger cfgOpt isDev force).errorFile.enc = .json ∧
    (createLogger cfgOpt isDev force).exceptionsFile.enc = .json ∧
    (createLogger cfgOpt isDev force).rejectionsFile.enc = .json ∧
    jsonParse (fileLine cfgFormat ts r) = some (.obj (infoObj ts r)) ∧
    lookupKey "level" (infoObj ts r) = some (.str (levelName r.level)) ∧
    lookupKey "message" (infoObj ts r) = some (.str r.message) ∧
    lookupKey "timestamp" (infoObj ts r) = some (.str ts) ∧
    (∀ k v, lookupKey k r.meta = some v → lookupKey k (infoObj ts r) = some v) := by
  have hfil : infoObj ts r = reservedFields ts r ++ r.meta := by
    simp [infoObj, reservedFields, List.filter, hl, hm, hts]
  refine ⟨rfl, rfl, rfl, rfl, rfl, jsonParse_render (.obj (infoObj ts r)), ?_, ?_, ?_, ?_⟩
  · rw [hfil]
    simp [reservedFields, lookupKey]
  · rw [hfil]
    simp [reservedFields, lookupKey]
  · rw [hfil]
    simp [reservedFields, lookupKey]
  · intro k v hk
    have hkk : hasKey k r.meta = true := by simp [hasKey, hk]
    have hne : lookupKey k (reservedFields ts r) = none := by
      simp only [reservedFields, lookupKey]
      by_cases e1 : "level" = k
      · exfalso
        rw [← e1] at hkk
        rw [hl] at hkk
        exact absurd hkk (by decide)
      · by_cases e2 : "message" = k
        · exfalso
          rw [← e2] at hkk
          rw [hm] at hkk
          exact absurd hkk (by decide)
        · by_cases e3 : "timestamp" = k
          · exfalso
            rw [← e3] at hkk
            rw [hts] at hkk
            exact absurd hkk (by decide)
          · simp [e1, e2, e3]
    rw [hfil, lookupKey_append, hne]
    exact hk

/-- Witness for C3 at spec scenario A: level info, message "Server started",
metadata port 3000. -/
theorem C3_fileLine_roundTrip_witness :
    jsonParse (fileLine "pretty" "2025-12-13 12:47:10"
        { level := .info, message := "Server started", meta := [("port", .num 3000)] })
      = some (.obj (infoObj "2025-12-13 12:47:10"
        { level := .info, message := "Server started", meta := [("port", .num 3000)] })) ∧
    lookupKey "message" (infoObj "2025-12-13 12:47:10"
        { level := .info, message := "Server started", meta := [("port", .num 3000)] })
      = some (.str "Server started") ∧
    lookupKey "port" (infoObj "2025-12-13 12:47:10"
        { level := .info, message := "Server started", meta := [("port", .num 3000)] })
      = some (.num 3000) := by
  have h := C3_fileLine_roundTrip "pretty" "2025-12-13 12:47:10"
    { level := .info, message := "Server started", meta := [("port", .num 3000)] }
    none true false (by decide) (by decide) (by decide)
  exact ⟨h.2.2.2.2.2.1, h.2.2.2.2.2.2.2.1,
    h.2.2.2.2.2.2.2.2.2 "port" (.num 3000) rfl⟩

/-- C10: the end-override installed by the verbose dumper returns exactly the
original end function's result on the same receiver and arguments, adding
only one debug emission. -/
theorem C10_detailedResponseEnd {Res Chunk Enc Cb Ret : Type}
    (req : ReqInfo) (statusCode duration : Nat) (resHeaders : JVal)
    (originalEnd : Res → Chunk → Enc → Cb → Ret)
    (res : Res) (chunk : Chunk) (encoding : Enc) (callback : Cb) :
    (detailedResponseEnd req statusCode duration resHeaders originalEnd
        res chunk encoding callback).2
      = originalEnd res chunk encoding callback ∧
    (detailedResponseEnd req statusCode duration resHeaders originalEnd
        res chunk encoding callback).1.level = .debug ∧
    (detailedResponseEnd req statusCode duration resHeaders originalEnd
        res chunk encoding callback).1.message = "Outgoing response" := by
  exact ⟨rfl, rfl, rfl⟩

end NodeSvc
